import Mathlib

/-!
Shallow embedding of the board-game core: the `Village` state machine
(src/village.rs) and the `Mini` virtual machine (src/mini.rs).

Conventions of the embedding:
* `u8` values (labels, the register, repeat counters) are modeled as `Nat`;
  the code never does wrapping arithmetic on them except the label cast in
  `Village::new`, which is modeled explicitly with `% 256`.
* The Rust instruction stack is a `Vec` whose next instruction is at the
  *end*; we model the stack as a `List` whose next instruction is at the
  *head*, so `Vec::pop` becomes pattern matching on the head and
  `Vec::extend(xs)`/`Vec::push x` become `xs.reverse ++ ·` / `x :: ·`.
* Functions that can panic in Rust (integer overflow in `run_night`,
  `expect` on lookups, `expect` on missing shuffle ids) return `Option`,
  with `none` for the panic.
* The two sources of randomness are passed explicitly: the shuffled id
  vector of `Village::new` as a list argument, and the `random_bool(0.5)`
  coin flips of `run_night` as a `Nat → Bool` stream.
-/

namespace BoardGame

/-- Villager kinds (src/village.rs `VillagerType`); `Strong b` carries the
resistance flag, `b = true` meaning the resistance is still unused. -/
inductive VillagerType
  | Normal
  | Strong (unused : Bool)
  | Afraid
  | Murderer
deriving DecidableEq

/-- A villager record: kind and label. In Rust the `Alive`/`Dead` lifecycle
state is a phantom type parameter carrying no data, so living and dead
villagers share this record; which collection of the village a villager sits
in determines its lifecycle state. -/
structure Villager where
  kind : VillagerType
  label : Nat
deriving DecidableEq

/-- Rust `Villager::has_label`. -/
def Villager.has_label (w : Villager) (label : Nat) : Bool :=
  decide (w.label = label)

/-- Rust `LivingVillager::kill`: the record's data is copied unchanged into
the dead-state record. -/
def Villager.kill (w : Villager) : Villager :=
  { kind := w.kind, label := w.label }

/-- Village status (src/village.rs `VillageStatus`). -/
inductive VillageStatus
  | Running
  | VillagersWon
  | MurdersWon
deriving DecidableEq

/-- Village errors (src/village.rs `VillageError`). -/
inductive VillageError
  | NoSuchVillager (label : Nat)
deriving DecidableEq

/-- The village state (src/village.rs `Village`). -/
structure Village where
  living_villagers : List Villager
  dead_villagers : List Villager
  status : VillageStatus
  layout : List Villager
deriving DecidableEq

/-- Rust `Village::new_deterministic`. -/
def Village.new_deterministic (villagers : List Villager) : Village :=
  { living_villagers := villagers
    dead_villagers := []
    status := VillageStatus.Running
    layout := villagers }

/-- Rust `Village::villager_exists`. -/
def Village.villager_exists (v : Village) (label : Nat) : Bool :=
  v.dead_villagers.any (fun w => w.has_label label)
    || v.living_villagers.any (fun w => w.has_label label)

/-- Rust `Village::living_villager`. -/
def Village.living_villager (v : Village) (label : Nat) : Option Villager :=
  v.living_villagers.find? (fun w => w.has_label label)

/-- Rust `Village::dead_villager`. -/
def Village.dead_villager (v : Village) (label : Nat) : Option Villager :=
  v.dead_villagers.find? (fun w => w.has_label label)

/-- Rust `Village::villager_type`: checks the living collection first,
then the dead one. -/
def Village.villager_type (v : Village) (label : Nat) :
    Except VillageError VillagerType :=
  match v.living_villager label with
  | some w => Except.ok w.kind
  | none =>
    match v.dead_villager label with
    | some w => Except.ok w.kind
    | none => Except.error (VillageError.NoSuchVillager label)

/-- Remove the first list element satisfying `p`, returning it and the rest
of the list: the `iter().position(...)` / `Vec::remove` pair used by
`Village::kill_villager`. -/
def remove_first (p : Villager → Bool) : List Villager → Option (Villager × List Villager)
  | [] => none
  | w :: ws =>
    if p w then some (w, ws)
    else (remove_first p ws).map (fun x => (x.1, w :: x.2))

/-- Rust `Village::kill_villager`. The Rust signature
`&mut self → Result<(), VillageError>` is modeled state-passing style: the
returned village is the (possibly) mutated `self`; on the error path the
function returns before mutating, so the input village is returned. -/
def Village.kill_villager (v : Village) (label : Nat) :
    Except VillageError Unit × Village :=
  match remove_first (fun w => w.has_label label) v.living_villagers with
  | none => (Except.error (VillageError.NoSuchVillager label), v)
  | some (w, rest) =>
    (Except.ok (),
      { v with living_villagers := rest
               dead_villagers := v.dead_villagers ++ [w.kill] })

/-- Rust `Village::update_status`. -/
def Village.update_status (v : Village) : Village :=
  let murderers :=
    (v.living_villagers.filter
      (fun w => decide (w.kind = VillagerType.Murderer))).length
  if murderers = 0 then { v with status := VillageStatus.VillagersWon }
  else if murderers = v.living_villagers.length then
    { v with status := VillageStatus.MurdersWon }
  else v

/-- Mutate the kind of the first villager carrying `label`: the
`living_villager_mut(label).set_kind(kind)` pattern of `run_night`
(`iter_mut().find(...)` returns the first match). -/
def set_kind_first (label : Nat) (kind : VillagerType) :
    List Villager → List Villager
  | [] => []
  | w :: ws =>
    if w.has_label label then { w with kind := kind } :: ws
    else w :: set_kind_first label kind ws

/-- The predicate checked by the two neighbor searches in
`Village::run_night`: `living_villager(label).map(kind ≠ Murderer).unwrap_or(false)`. -/
def Village.living_non_murderer (v : Village) (label : Nat) : Bool :=
  match v.living_villager label with
  | some w => decide (w.kind ≠ VillagerType.Murderer)
  | none => false

/-- First value satisfying `p` among `s, s+1, ..., s+n-1`, in that order:
the ascending iterator `find` of `run_night`. -/
def find_asc (p : Nat → Bool) : Nat → Nat → Option Nat
  | _, 0 => none
  | s, n + 1 => if p s then some s else find_asc p (s + 1) n

/-- First value satisfying `p` among `k, k-1, ..., 1`, in that order:
the descending iterator `find` of `run_night`. -/
def find_desc (p : Nat → Bool) : Nat → Option Nat
  | 0 => none
  | k + 1 => if p (k + 1) then some (k + 1) else find_desc p k

/-- Rust `neighbors_above.find(...)` of `run_night`: the nearest living
non-murderer label in `(murder_label+1)..=255`. Only meaningful for
`murder_label < 255`; the overflow of `murder_label + 1` at 255 is handled
in `Village.murderer_turn`. -/
def Village.to_kill_above (v : Village) (murder_label : Nat) : Option Nat :=
  find_asc (v.living_non_murderer) (murder_label + 1) (255 - murder_label)

/-- Rust `neighbors_below.find(...)` of `run_night`: the nearest living
non-murderer label in `(1..murder_label).rev()`. -/
def Village.to_kill_below (v : Village) (murder_label : Nat) : Option Nat :=
  find_desc (v.living_non_murderer) (murder_label - 1)

/-- One murderer's action in the loop body of `Village::run_night`.
`coin` is the `random_bool(0.5)` outcome (`true` = pick the neighbor above).
`none` models a panic: the u8 overflow of `murder_label + 1` when the
murderer's label is 255, or a failing `expect` on the lookups (the latter
never fire, as proved below). -/
def Village.murderer_turn (v : Village) (murder_label : Nat) (coin : Bool) :
    Option Village :=
  if 255 ≤ murder_label then none
  else
    match (if coin then v.to_kill_above murder_label
           else v.to_kill_below murder_label) with
    | none => some v
    | some label =>
      match v.villager_type label with
      | Except.error _ => none
      | Except.ok (VillagerType.Strong true) =>
        match v.living_villager label with
        | none => none
        | some _ =>
          some { v with living_villagers :=
                  (set_kind_first label (VillagerType.Strong false)
                    v.living_villagers) }
      | Except.ok _ =>
        match v.kill_villager label with
        | (Except.ok _, killed) => some killed
        | (Except.error _, _) => none

/-- The snapshot of living murderer labels taken at the top of
`Village::run_night`. -/
def Village.murderer_snapshot (v : Village) : List Nat :=
  v.living_villagers.filterMap
    (fun w => match w.kind with
      | VillagerType.Murderer => some w.label
      | _ => none)

/-- The murderer loop of `Village::run_night`, consuming one coin flip per
snapshot label. -/
def run_murderers (v : Village) : List Nat → (Nat → Bool) → Option Village
  | [], _ => some v
  | l :: ls, coins =>
    match v.murderer_turn l (coins 0) with
    | none => none
    | some v' => run_murderers v' ls (fun n => coins (n + 1))

/-- Rust `Village::run_night`: act for every snapshot murderer, then
recompute the status. -/
def Village.run_night (v : Village) (coins : Nat → Bool) : Option Village :=
  (run_murderers v v.murderer_snapshot coins).map Village.update_status

/-- The unlabeled villager list built by `Village::new` before labels are
assigned: the requested count of each kind, in kind order, each with the
placeholder label 0. -/
def mk_villagers (normal strong afraid murderers : Nat) : List Villager :=
  List.replicate normal { kind := VillagerType.Normal, label := 0 } ++
  List.replicate strong { kind := VillagerType.Strong true, label := 0 } ++
  List.replicate afraid { kind := VillagerType.Afraid, label := 0 } ++
  List.replicate murderers { kind := VillagerType.Murderer, label := 0 }

/-- The labeling loop of `Village::new`: villager `i` receives
`ids[i] as u8` (a truncating cast, hence `% 256`); the `expect` on a missing
id — `ids` shorter than the villager list — is modeled as `none`. -/
def assign_labels (villagers : List Villager) (ids : List Nat) :
    Option (List Villager) :=
  if villagers.length ≤ ids.length then
    some (List.zipWith (fun w id => { w with label := id % 256 }) villagers ids)
  else none

/-- Rust `Village::new`. `ids` is the shuffled id vector; the Rust code
draws it as a random permutation of `1..=total`, which the theorems below
quantify over. -/
def Village.new (normal strong afraid murderers : Nat) (ids : List Nat) :
    Option Village :=
  (assign_labels (mk_villagers normal strong afraid murderers) ids).map
    (fun villagers =>
      { living_villagers := villagers
        dead_villagers := []
        status := VillageStatus.Running
        layout := villagers })

/-- Actions a mini can take (src/mini.rs `Action`). -/
inductive Action
  | PostRegister
  | PostFlare
  | Detonate
  | Visit
deriving DecidableEq

/-- Register operations (src/mini.rs `Operation`). -/
inductive Operation
  | Increment
  | Decrement
  | SetValue (value : Nat)
deriving DecidableEq

/-- Conditional tests (src/mini.rs `Condition`). -/
inductive Condition
  | VillagerIsAlive
  | VillagerIsDead
  | RegisterEq (value : Nat)
deriving DecidableEq

/-- Instructions (src/mini.rs `Instruction`). -/
inductive Instruction
  | Action (a : Action)
  | Operation (o : Operation)
  | Condition (c : Condition) (nested : List Instruction)
  | Repeat (remaining : Nat) (nested : List Instruction)
  | Break

/-- Log events (src/mini.rs `Event`). -/
inductive Event
  | PostedRegister (value : Nat)
  | PostedFlare
  | Finished
deriving DecidableEq

/-- Mini status (src/mini.rs `MiniStatus`). -/
inductive MiniStatus
  | Running
  | Done
  | Destroyed
  | Lost
deriving DecidableEq

/-- The mini VM state (src/mini.rs `Mini`). The Rust instruction stack is a
`Vec` read back to front; here the next instruction is the list head. -/
structure Mini where
  instruction_stack : List Instruction
  register : Nat
  status : MiniStatus
  location : Nat
  log : List Event

/-- Rust `Mini::visit_villager`: become lost on a nonexistent label,
otherwise move there and react to the villager found. -/
def Mini.visit_villager (m : Mini) (village : Village) (location : Nat) : Mini :=
  if village.villager_exists location then
    let m' := { m with location := location }
    if (village.dead_villager location).isSome then m'
    else
      match village.villager_type location with
      | Except.ok VillagerType.Murderer =>
        { m' with status := MiniStatus.Destroyed, log := [] }
      | Except.ok VillagerType.Afraid =>
        { m' with status := MiniStatus.Destroyed }
      | _ => m'
  else { m with status := MiniStatus.Lost }

/-- Rust `Mini::new`: fresh state with register 0, `Running`, empty log,
followed by an immediate visit to the starting location. -/
def Mini.new (starting_location : Nat) (base_instructions : List Instruction)
    (village : Village) : Mini :=
  Mini.visit_villager
    { instruction_stack := base_instructions
      register := 0
      status := MiniStatus.Running
      location := starting_location
      log := [] }
    village starting_location

/-- The popping loop of the `Break` arm of `run_instruction`: discard
instructions until a `Repeat` is discarded (second component `false`) or the
stack is exhausted (second component `true`, meaning status becomes `Done`). -/
def unwind : List Instruction → List Instruction × Bool
  | [] => ([], true)
  | Instruction.Repeat _ _ :: rest => (rest, false)
  | _ :: rest => unwind rest

/-- Rust `Mini::run_instruction`: pop the next instruction and dispatch.
The returned pair is the mini and the (possibly mutated) village. -/
def Mini.run_instruction (m : Mini) (village : Village) : Mini × Village :=
  match m.instruction_stack with
  | [] => ({ m with status := MiniStatus.Done }, village)
  | instruction :: rest =>
    match instruction with
    | Instruction.Action Action.PostRegister =>
      ({ m with instruction_stack := rest
                log := m.log ++ [Event.PostedRegister m.register] }, village)
    | Instruction.Action Action.PostFlare =>
      ({ m with instruction_stack := rest
                log := m.log ++ [Event.PostedFlare] }, village)
    | Instruction.Action Action.Detonate =>
      ({ m with instruction_stack := rest
                status := MiniStatus.Destroyed },
        (village.kill_villager m.register).2)
    | Instruction.Action Action.Visit =>
      (Mini.visit_villager { m with instruction_stack := rest } village m.register,
        village)
    | Instruction.Operation Operation.Increment =>
      if m.register = 255 then
        ({ m with instruction_stack := rest, status := MiniStatus.Destroyed }, village)
      else
        ({ m with instruction_stack := rest, register := m.register + 1 }, village)
    | Instruction.Operation Operation.Decrement =>
      if m.register = 0 then
        ({ m with instruction_stack := rest, status := MiniStatus.Destroyed }, village)
      else
        ({ m with instruction_stack := rest, register := m.register - 1 }, village)
    | Instruction.Operation (Operation.SetValue value) =>
      ({ m with instruction_stack := rest, register := value }, village)
    | Instruction.Condition Condition.VillagerIsAlive instructions =>
      if (village.living_villager m.location).isSome then
        ({ m with instruction_stack := instructions.reverse ++ rest }, village)
      else ({ m with instruction_stack := rest }, village)
    | Instruction.Condition Condition.VillagerIsDead instructions =>
      if (village.dead_villager m.location).isSome then
        ({ m with instruction_stack := instructions.reverse ++ rest }, village)
      else ({ m with instruction_stack := rest }, village)
    | Instruction.Condition (Condition.RegisterEq value) instructions =>
      if m.register = value then
        ({ m with instruction_stack := instructions.reverse ++ rest }, village)
      else ({ m with instruction_stack := rest }, village)
    | Instruction.Repeat iterations instructions =>
      if iterations ≠ 0 then
        ({ m with instruction_stack :=
            (instructions.reverse ++
              Instruction.Repeat (iterations - 1) instructions :: rest) }, village)
      else ({ m with instruction_stack := rest }, village)
    | Instruction.Break =>
      match unwind rest with
      | (rest', true) =>
        ({ m with instruction_stack := rest', status := MiniStatus.Done }, village)
      | (rest', false) =>
        ({ m with instruction_stack := rest' }, village)

mutual

/-- Instruction weight: an upper bound on the work an instruction can place
on the stack, used as the termination measure of `run_until_completion`. -/
def iweight : Instruction → Nat
  | Instruction.Action _ => 1
  | Instruction.Operation _ => 1
  | Instruction.Condition _ nested => 1 + lweight nested
  | Instruction.Repeat n nested => 1 + n * (1 + lweight nested)
  | Instruction.Break => 1

/-- Total weight of an instruction list. -/
def lweight : List Instruction → Nat
  | [] => 0
  | i :: rest => iweight i + lweight rest

end

/-- Measure for the `run_until_completion` loop: strictly decreases with
every iteration of the loop body (proved below), so it bounds the number of
iterations the Rust `while` loop can make. -/
def Mini.measure (m : Mini) : Nat :=
  if m.status = MiniStatus.Running then 1 + lweight m.instruction_stack else 0

/-- The `while status == Running { run_instruction }` loop of
`Mini::run_until_completion`, bounded by an iteration budget. The budget is
immaterial as soon as it is at least `Mini.measure`: the measure strictly
decreases each iteration (`run_instruction_measure_lt` below), so the loop
always exits through the status test, exactly like the unbounded Rust loop
(`run_loop_stable` below). -/
def run_loop : Nat → Mini → Village → Mini × Village
  | 0, m, village => (m, village)
  | fuel + 1, m, village =>
    if m.status = MiniStatus.Running then
      let p := m.run_instruction village
      run_loop fuel p.1 p.2
    else (m, village)

/-- Rust `Mini::run_until_completion`: run the loop, then append `Finished`
to the log exactly when the final status is `Done`. -/
def Mini.run_until_completion (m : Mini) (village : Village) : Mini × Village :=
  let p := run_loop m.measure m village
  if p.1.status = MiniStatus.Done then
    ({ p.1 with log := p.1.log ++ [Event.Finished] }, p.2)
  else p

/-- The public mutating operations of `Village` (the queries take `&self`
and cannot change state, so they are omitted). `night` carries its coin-flip
stream. -/
inductive VillageOp
  | kill (label : Nat)
  | night (coins : Nat → Bool)
  | updateStatus

/-- Apply one public operation. `kill` on a missing label and a panicking
`run_night` leave the village unchanged, matching the Rust error path
(resp. the absence of any observable successor state). -/
def applyOp (v : Village) : VillageOp → Village
  | VillageOp.kill label => (v.kill_villager label).2
  | VillageOp.night coins => (v.run_night coins).getD v
  | VillageOp.updateStatus => v.update_status

/-- Apply a sequence of public operations in order. -/
def applyOps : Village → List VillageOp → Village
  | v, [] => v
  | v, op :: ops => applyOps (applyOp v op) ops

/-! ### Helper lemmas -/

theorem has_label_iff {w : Villager} {label : Nat} :
    w.has_label label = true ↔ w.label = label := by
  simp [Villager.has_label]

theorem has_label_false_iff {w : Villager} {label : Nat} :
    w.has_label label = false ↔ w.label ≠ label := by
  simp [Villager.has_label]

theorem remove_first_eq_none {p : Villager → Bool} {l : List Villager} :
    remove_first p l = none ↔ ∀ w ∈ l, p w = false := by
  induction l with
  | nil => simp [remove_first]
  | cons w ws ih =>
    by_cases h : p w
    · simp [remove_first, h]
    · simp only [remove_first, if_neg h, Option.map_eq_none', ih,
        List.mem_cons]
      constructor
      · intro hall u hu
        rcases hu with rfl | hu
        · exact Bool.eq_false_iff.mpr h
        · exact hall u hu
      · intro hall u hu
        exact hall u (Or.inr hu)

theorem remove_first_eq_some {p : Villager → Bool} :
    ∀ {l : List Villager} {w : Villager} {rest : List Villager},
    remove_first p l = some (w, rest) →
    ∃ pre post, l = pre ++ w :: post ∧ rest = pre ++ post ∧ p w = true ∧
      ∀ u ∈ pre, p u = false := by
  intro l
  induction l with
  | nil => intro w rest h; simp [remove_first] at h
  | cons x xs ih =>
    intro w rest h
    by_cases hx : p x
    · rw [remove_first, if_pos hx, Option.some.injEq] at h
      have h1 : x = w := congrArg Prod.fst h
      have h2 : xs = rest := congrArg Prod.snd h
      subst h1; subst h2
      exact ⟨[], xs, rfl, rfl, hx, by intro u hu; cases hu⟩
    · rw [remove_first, if_neg hx] at h
      cases hr : remove_first p xs with
      | none => rw [hr] at h; simp at h
      | some pr =>
        rw [hr, Option.map_some'] at h
        obtain ⟨h1, h2⟩ : pr.1 = w ∧ x :: pr.2 = rest := by
          have := Option.some.inj h
          exact ⟨congrArg Prod.fst this, congrArg Prod.snd this⟩
        obtain ⟨pre, post, hl, hrest, hpw, hpre⟩ :=
          ih (show remove_first p xs = some (pr.1, pr.2) by rw [hr])
        refine ⟨x :: pre, post, ?_, ?_, h1 ▸ hpw, ?_⟩
        · simp [hl, h1]
        · rw [← h2, hrest]; simp
        · intro u hu
          rcases List.mem_cons.mp hu with rfl | hu
          · exact Bool.eq_false_iff.mpr hx
          · exact hpre u hu

theorem remove_first_of_find? {p : Villager → Bool} :
    ∀ {l : List Villager} {w : Villager}, l.find? p = some w →
    ∃ rest, remove_first p l = some (w, rest) := by
  intro l
  induction l with
  | nil => intro w h; simp at h
  | cons x xs ih =>
    intro w h
    by_cases hx : p x
    · rw [List.find?_cons_of_pos _ hx, Option.some.injEq] at h
      exact ⟨xs, by rw [remove_first, if_pos hx, h]⟩
    · rw [List.find?_cons_of_neg _ hx] at h
      obtain ⟨rest, hr⟩ := ih h
      exact ⟨x :: rest, by rw [remove_first, if_neg hx, hr, Option.map_some']⟩

/-! ### Claim C7: kill_villager -/

/-- Claim C7: `kill_villager(label)` fails with `NoSuchVillager(label)`
exactly when no living villager carries the label, leaving the whole
village unchanged in that case; on success the first living villager with
the label is removed from the living collection and appended to the dead
collection with kind and label preserved, all other village state
untouched. -/
theorem kill_villager_result (v : Village) (label : Nat) :
    ((v.kill_villager label).1 =
        Except.error (VillageError.NoSuchVillager label) ↔
      ∀ w ∈ v.living_villagers, w.label ≠ label) ∧
    ((∀ w ∈ v.living_villagers, w.label ≠ label) →
      (v.kill_villager label).2 = v) ∧
    (∀ w, v.living_villager label = some w →
      ∃ pre post, v.living_villagers = pre ++ w :: post ∧
        (∀ u ∈ pre, u.label ≠ label) ∧ w.label = label ∧
        (v.kill_villager label).1 = Except.ok () ∧
        (v.kill_villager label).2 =
          { v with living_villagers := pre ++ post
                   dead_villagers := v.dead_villagers ++
                     [{ kind := w.kind, label := w.label }] }) := by
  refine ⟨⟨?_, ?_⟩, ?_, ?_⟩
  · intro h w hw
    cases hr : remove_first (fun w => w.has_label label) v.living_villagers with
    | none =>
      exact has_label_false_iff.mp (remove_first_eq_none.mp hr w hw)
    | some pr =>
      rw [Village.kill_villager, hr] at h
      cases h
  · intro h
    have hrm : remove_first (fun w => w.has_label label) v.living_villagers = none :=
      remove_first_eq_none.mpr (fun w hw => has_label_false_iff.mpr (h w hw))
    rw [Village.kill_villager, hrm]
  · intro h
    have hrm : remove_first (fun w => w.has_label label) v.living_villagers = none :=
      remove_first_eq_none.mpr (fun w hw => has_label_false_iff.mpr (h w hw))
    rw [Village.kill_villager, hrm]
  · intro w hw
    obtain ⟨rest, hrm⟩ := remove_first_of_find? hw
    obtain ⟨pre, post, hl, hrest, hpw, hpre⟩ := remove_first_eq_some hrm
    refine ⟨pre, post, hl, ?_, has_label_iff.mp hpw, ?_, ?_⟩
    · intro u hu; exact has_label_false_iff.mp (hpre u hu)
    · rw [Village.kill_villager, hrm]
    · rw [Village.kill_villager, hrm, hrest]
      rfl

/-- Concrete check of C7: killing label 2 in a village whose only living
villager has label 1 fails with `NoSuchVillager 2` and changes nothing. -/
theorem kill_villager_result_witness :
    (((Village.new_deterministic
        [{ kind := VillagerType.Normal, label := 1 }]).kill_villager 2).1 =
      Except.error (VillageError.NoSuchVillager 2)) ∧
    (((Village.new_deterministic
        [{ kind := VillagerType.Normal, label := 1 }]).kill_villager 2).2 =
      Village.new_deterministic
        [{ kind := VillagerType.Normal, label := 1 }]) := by
  have h := kill_villager_result
    (Village.new_deterministic [{ kind := VillagerType.Normal, label := 1 }]) 2
  exact ⟨h.1.mpr (by decide), h.2.1 (by decide)⟩

/-! ### Claim C4: update_status win conditions -/

theorem murderer_filter_zero_iff (v : Village) :
    (v.living_villagers.filter
      (fun w => decide (w.kind = VillagerType.Murderer))).length = 0 ↔
    ∀ w ∈ v.living_villagers, w.kind ≠ VillagerType.Murderer := by
  rw [List.length_eq_zero, List.filter_eq_nil_iff]
  simp

theorem murderer_filter_all_iff (v : Village) :
    (v.living_villagers.filter
      (fun w => decide (w.kind = VillagerType.Murderer))).length =
      v.living_villagers.length ↔
    ∀ w ∈ v.living_villagers, w.kind = VillagerType.Murderer := by
  constructor
  · intro h w hw
    have heq : v.living_villagers.filter
        (fun w => decide (w.kind = VillagerType.Murderer)) =
        v.living_villagers :=
      (List.filter_sublist _).eq_of_length h
    have := List.filter_eq_self.mp heq w hw
    simpa using this
  · intro h
    rw [List.filter_eq_self.mpr (fun w hw => by simpa using h w hw)]

/-- Claim C4: after `update_status`, provided the recorded status is
consistent with the living collection (which holds for every village built
and mutated through the public API: `VillagersWon` is only recorded when no
living murderer exists, `MurdersWon` only when every living villager is a
murderer), the new status is `VillagersWon` iff the living collection holds
no murderer, `MurdersWon` iff it is nonempty and all murderers, and in all
remaining cases the status stays `Running` unchanged. -/
theorem update_status_win_conditions (v : Village)
    (hV : v.status = VillageStatus.VillagersWon →
      ∀ w ∈ v.living_villagers, w.kind ≠ VillagerType.Murderer)
    (hM : v.status = VillageStatus.MurdersWon →
      ∀ w ∈ v.living_villagers, w.kind = VillagerType.Murderer) :
    (v.update_status.status = VillageStatus.VillagersWon ↔
      ∀ w ∈ v.living_villagers, w.kind ≠ VillagerType.Murderer) ∧
    (v.update_status.status = VillageStatus.MurdersWon ↔
      (v.living_villagers ≠ [] ∧
        ∀ w ∈ v.living_villagers, w.kind = VillagerType.Murderer)) ∧
    ((¬ ∀ w ∈ v.living_villagers, w.kind ≠ VillagerType.Murderer) →
      (¬ (v.living_villagers ≠ [] ∧
        ∀ w ∈ v.living_villagers, w.kind = VillagerType.Murderer)) →
      v.update_status.status = v.status ∧
        v.status = VillageStatus.Running) := by
  by_cases hm0 : (v.living_villagers.filter
      (fun w => decide (w.kind = VillagerType.Murderer))).length = 0
  · have hst : v.update_status.status = VillageStatus.VillagersWon := by
      simp [Village.update_status, hm0]
    refine ⟨⟨fun _ => (murderer_filter_zero_iff v).mp hm0, fun _ => hst⟩,
      ⟨fun h => absurd hst (by rw [h]; exact fun hc => by cases hc), ?_⟩, ?_⟩
    · rintro ⟨hne, hall⟩
      have := (murderer_filter_all_iff v).mpr hall
      rw [hm0] at this
      exact absurd (List.length_eq_zero.mp this.symm) hne
    · intro hno _
      exact absurd ((murderer_filter_zero_iff v).mp hm0) hno
  · by_cases hml : (v.living_villagers.filter
        (fun w => decide (w.kind = VillagerType.Murderer))).length =
        v.living_villagers.length
    · have hne : v.living_villagers ≠ [] := by
        intro hnil
        exact hm0 (by rw [hml, hnil]; rfl)
      have hlen0 : ¬ v.living_villagers.length = 0 :=
        fun hc => hne (List.length_eq_zero.mp hc)
      have hst : v.update_status.status = VillageStatus.MurdersWon := by
        simp [Village.update_status, hm0, hml, hlen0]
      refine ⟨⟨fun h => absurd hst (by rw [h]; exact fun hc => by cases hc),
        fun h => absurd ((murderer_filter_zero_iff v).mpr h) hm0⟩,
        ⟨fun _ => ⟨hne, (murderer_filter_all_iff v).mp hml⟩, fun _ => hst⟩, ?_⟩
      · intro _ hc
        exact absurd ⟨hne, (murderer_filter_all_iff v).mp hml⟩ hc
    · have hst : v.update_status.status = v.status := by
        simp [Village.update_status, hm0, hml]
      have hrun : v.status = VillageStatus.Running := by
        cases hs : v.status with
        | Running => rfl
        | VillagersWon =>
          exact absurd ((murderer_filter_zero_iff v).mpr (hV hs)) hm0
        | MurdersWon =>
          exact absurd ((murderer_filter_all_iff v).mpr (hM hs)) hml
      refine ⟨⟨fun h => ?_, fun h => absurd ((murderer_filter_zero_iff v).mpr h) hm0⟩,
        ⟨fun h => ?_, ?_⟩, fun _ _ => ⟨hst, hrun⟩⟩
      · rw [hst, hrun] at h; cases h
      · rw [hst, hrun] at h; cases h
      · rintro ⟨_, hall⟩
        exact absurd ((murderer_filter_all_iff v).mpr hall) hml

/-- Concrete check of C4: a village of one normal villager and one murderer,
status `Running`, stays `Running` after `update_status`; killing the
murderer and updating again yields `VillagersWon`. -/
theorem update_status_win_conditions_witness :
    ((Village.new_deterministic
      [{ kind := VillagerType.Normal, label := 1 },
       { kind := VillagerType.Murderer, label := 2 }]).update_status.status =
      VillageStatus.Running) := by
  have h := update_status_win_conditions
    (Village.new_deterministic
      [{ kind := VillagerType.Normal, label := 1 },
       { kind := VillagerType.Murderer, label := 2 }])
    (by intro hc; cases hc) (by intro hc; cases hc)
  exact (h.2.2 (by decide) (by decide)).1.trans rfl

/-! ### Claim C8: status monotonicity (corrected) -/

theorem kill_villager_status (v : Village) (label : Nat) :
    (v.kill_villager label).2.status = v.status := by
  cases h : remove_first (fun w => w.has_label label) v.living_villagers with
  | none => simp [Village.kill_villager, h]
  | some pr => cases pr; simp [Village.kill_villager, h]

theorem kill_villager_living_mem (v : Village) (label : Nat) :
    ∀ w ∈ (v.kill_villager label).2.living_villagers,
      w ∈ v.living_villagers := by
  cases h : remove_first (fun w => w.has_label label) v.living_villagers with
  | none => simp [Village.kill_villager, h]
  | some pr =>
    cases pr with
    | mk w0 rest =>
      obtain ⟨pre, post, hl, hrest, -, -⟩ := remove_first_eq_some h
      intro w hw
      simp only [Village.kill_villager, h] at hw
      rw [hl]
      rw [hrest] at hw
      simp only [List.mem_append, List.mem_cons] at hw ⊢
      tauto

theorem murderer_snapshot_eq_nil (v : Village)
    (hno : ∀ w ∈ v.living_villagers, w.kind ≠ VillagerType.Murderer) :
    v.murderer_snapshot = [] := by
  rw [Village.murderer_snapshot, List.filterMap_eq_nil_iff]
  intro w hw
  cases hk : w.kind <;> first
    | rfl
    | exact absurd hk (hno w hw)

theorem update_status_no_murderers (v : Village)
    (hno : ∀ w ∈ v.living_villagers, w.kind ≠ VillagerType.Murderer) :
    v.update_status = { v with status := VillageStatus.VillagersWon } := by
  have hm0 := (murderer_filter_zero_iff v).mpr hno
  simp [Village.update_status, hm0]

/-- Claim C8 counterexample: with a single living murderer,
`update_status` records `MurdersWon` (not `Running`); the later public
operations `kill_villager(1)` followed by `update_status` change the status
again, to `VillagersWon` — so a non-`Running` status is not final under the
public operations. -/
theorem status_not_monotonic_cex :
    ((Village.new_deterministic
        [{ kind := VillagerType.Murderer, label := 1 }]).update_status.status =
      VillageStatus.MurdersWon) ∧
    ((applyOps
        (Village.new_deterministic
          [{ kind := VillagerType.Murderer, label := 1 }]).update_status
        [VillageOp.kill 1, VillageOp.updateStatus]).status =
      VillageStatus.VillagersWon) := by
  decide

/-- Claim C8 as amended: monotonicity holds for `VillagersWon` — once the
status is `VillagersWon` (together with the invariant, maintained by the
code, that this status is only recorded when no living murderer exists), no
sequence of public mutating operations (`kill_villager`, `run_night`,
`update_status`; the query operations cannot change state) ever changes the
status again. A `MurdersWon` status, by contrast, can later be flipped to
`VillagersWon` by killing the remaining murderers through `kill_villager`,
as the counterexample shows. -/
theorem status_villagers_won_stable (v : Village) (ops : List VillageOp)
    (hV : v.status = VillageStatus.VillagersWon)
    (hno : ∀ w ∈ v.living_villagers, w.kind ≠ VillagerType.Murderer) :
    (applyOps v ops).status = VillageStatus.VillagersWon := by
  induction ops generalizing v with
  | nil => exact hV
  | cons op ops ih =>
    cases op with
    | kill label =>
      exact ih _ ((kill_villager_status v label).trans hV)
        (fun w hw => hno w (kill_villager_living_mem v label w hw))
    | night coins =>
      have hrn : v.run_night coins = some v.update_status := by
        rw [Village.run_night, murderer_snapshot_eq_nil v hno]
        rfl
      have happ : applyOp v (VillageOp.night coins) = v.update_status := by
        rw [applyOp, hrn]; rfl
      rw [applyOps, happ, update_status_no_murderers v hno]
      exact ih _ rfl hno
    | updateStatus =>
      rw [applyOps, applyOp, update_status_no_murderers v hno]
      exact ih _ rfl hno

/-- Concrete check of the amended C8: from a one-normal-villager village
whose status has been recomputed to `VillagersWon`, killing that villager
and recomputing leaves the status `VillagersWon`. -/
theorem status_villagers_won_stable_witness :
    (applyOps
      (Village.new_deterministic
        [{ kind := VillagerType.Normal, label := 1 }]).update_status
      [VillageOp.kill 1, VillageOp.updateStatus]).status =
      VillageStatus.VillagersWon := by
  exact status_villagers_won_stable _ _ (by decide) (by decide)

/-! ### Claim C9: village generation (corrected) -/

theorem map_label_zipWith :
    ∀ (vs : List Villager) (ids : List Nat), vs.length = ids.length →
    (List.zipWith (fun w id => { w with label := id % 256 }) vs ids).map
      Villager.label = ids.map (· % 256) := by
  intro vs
  induction vs with
  | nil =>
    intro ids h
    cases ids with
    | nil => rfl
    | cons i is => simp at h
  | cons w ws ih =>
    intro ids h
    cases ids with
    | nil => simp at h
    | cons i is =>
      simp only [List.zipWith_cons_cons, List.map_cons]
      exact congrArg (_ :: ·) (ih is (Nat.succ.inj h))

theorem map_kind_zipWith :
    ∀ (vs : List Villager) (ids : List Nat), vs.length = ids.length →
    (List.zipWith (fun w id => { w with label := id % 256 }) vs ids).map
      Villager.kind = vs.map Villager.kind := by
  intro vs
  induction vs with
  | nil => intro ids _; rfl
  | cons w ws ih =>
    intro ids h
    cases ids with
    | nil => simp at h
    | cons i is =>
      simp only [List.zipWith_cons_cons, List.map_cons]
      exact congrArg (_ :: ·) (ih is (Nat.succ.inj h))

theorem countP_kind_zipWith (vs : List Villager) (ids : List Nat)
    (h : vs.length = ids.length) (p : VillagerType → Bool) :
    (List.zipWith (fun w id => { w with label := id % 256 }) vs ids).countP
      (fun w => p w.kind) = vs.countP (fun w => p w.kind) := by
  have h1 := congrArg (List.countP p) (map_kind_zipWith vs ids h)
  rw [List.countP_map, List.countP_map] at h1
  exact h1

set_option maxRecDepth 4000 in
/-- Claim C9 counterexample: with counts (255, 2, 0, 0) — total 257, all
four counts valid `u8` values — and the identity outcome of the shuffle,
`Village::new` truncates the ids through the `as u8` cast, and the label 1
is assigned to two distinct villagers (ids 1 and 257): labels are not
unique, refuting the claim for arbitrary non-negative counts. -/
theorem village_new_duplicate_label_cex :
    (Village.new 255 2 0 0 (List.range' 1 257)).map
      (fun v => (v.living_villagers.map Villager.label).count 1) =
      some 2 := by
  rfl

/-- Claim C9 as amended: the claim holds whenever the total villager count
is at most 255 (so every shuffled id survives the `as u8` cast): for any
shuffle outcome `ids` (a permutation of `1..=total`), `Village::new` creates
exactly the requested number of living villagers of each kind, assigns
labels that are exactly a permutation of `{1, ..., total}` — in particular
pairwise distinct — and snapshots the generated roster as the immutable
`layout`, with no dead villagers and status `Running`. For totals above 255
the cast truncates and label uniqueness fails, as the counterexample shows. -/
theorem village_new_labels_perm (normal strong afraid murderers : Nat)
    (ids : List Nat)
    (htot : normal + strong + afraid + murderers ≤ 255)
    (hperm : ids.Perm (List.range' 1 (normal + strong + afraid + murderers))) :
    ∃ v, Village.new normal strong afraid murderers ids = some v ∧
      v.living_villagers.length = normal + strong + afraid + murderers ∧
      v.living_villagers.countP
        (fun w => decide (w.kind = VillagerType.Normal)) = normal ∧
      v.living_villagers.countP
        (fun w => decide (w.kind = VillagerType.Strong true)) = strong ∧
      v.living_villagers.countP
        (fun w => decide (w.kind = VillagerType.Afraid)) = afraid ∧
      v.living_villagers.countP
        (fun w => decide (w.kind = VillagerType.Murderer)) = murderers ∧
      (v.living_villagers.map Villager.label).Perm
        (List.range' 1 (normal + strong + afraid + murderers)) ∧
      (v.living_villagers.map Villager.label).Nodup ∧
      v.layout = v.living_villagers ∧
      v.dead_villagers = [] ∧
      v.status = VillageStatus.Running := by
  have hmklen : (mk_villagers normal strong afraid murderers).length =
      normal + strong + afraid + murderers := by
    simp only [mk_villagers, List.length_append, List.length_replicate]
  have hidslen : ids.length = normal + strong + afraid + murderers := by
    have h := hperm.length_eq
    rwa [List.length_range'] at h
  have hlen : (mk_villagers normal strong afraid murderers).length =
      ids.length := hmklen.trans hidslen.symm
  have hassign : assign_labels (mk_villagers normal strong afraid murderers)
      ids = some (List.zipWith (fun w id => { w with label := id % 256 })
        (mk_villagers normal strong afraid murderers) ids) := by
    rw [assign_labels, if_pos (Nat.le_of_eq hlen)]
  have hnew : Village.new normal strong afraid murderers ids =
      some { living_villagers := List.zipWith
               (fun w id => { w with label := id % 256 })
               (mk_villagers normal strong afraid murderers) ids
             dead_villagers := []
             status := VillageStatus.Running
             layout := List.zipWith (fun w id => { w with label := id % 256 })
               (mk_villagers normal strong afraid murderers) ids } := by
    rw [Village.new, hassign]
    rfl
  have hlabels : (List.zipWith (fun w id => { w with label := id % 256 })
      (mk_villagers normal strong afraid murderers) ids).map Villager.label =
      ids := by
    rw [map_label_zipWith _ _ hlen]
    have hid : ∀ a ∈ ids, a % 256 = a := by
      intro a ha
      have hmem := hperm.mem_iff.mp ha
      rw [List.mem_range'] at hmem
      obtain ⟨i, hi, rfl⟩ := hmem
      exact Nat.mod_eq_of_lt (by omega)
    rw [List.map_congr_left hid, List.map_id']
  have hcount : ∀ p : VillagerType → Bool,
      (List.zipWith (fun w id => { w with label := id % 256 })
        (mk_villagers normal strong afraid murderers) ids).countP
        (fun w => p w.kind) =
      (((if p VillagerType.Normal then normal else 0) +
        (if p (VillagerType.Strong true) then strong else 0)) +
        (if p VillagerType.Afraid then afraid else 0)) +
        (if p VillagerType.Murderer then murderers else 0) := by
    intro p
    rw [countP_kind_zipWith _ _ hlen p, mk_villagers]
    simp only [List.countP_append, List.countP_replicate]
  refine ⟨_, hnew, ?_, ?_, ?_, ?_, ?_, ?_, ?_, rfl, rfl, rfl⟩
  · rw [List.length_zipWith, hmklen, hidslen]
    exact Nat.min_self _
  · have h := hcount (fun k => decide (k = VillagerType.Normal))
    simpa using h
  · have h := hcount (fun k => decide (k = VillagerType.Strong true))
    simpa using h
  · have h := hcount (fun k => decide (k = VillagerType.Afraid))
    simpa using h
  · have h := hcount (fun k => decide (k = VillagerType.Murderer))
    simpa using h
  · rw [hlabels]; exact hperm
  · rw [hlabels]
    exact hperm.symm.nodup (List.nodup_range' 1 _)

/-- Concrete check of the amended C9: counts (1,1,1,1) with the shuffle
outcome `[4,3,2,1]` produce a village. -/
theorem village_new_labels_perm_witness :
    (Village.new 1 1 1 1 [4, 3, 2, 1]).isSome = true := by
  obtain ⟨v, hv, -⟩ := village_new_labels_perm 1 1 1 1 [4, 3, 2, 1]
    (by decide) (by decide)
  rw [hv]
  rfl

/-! ### Night resolution helpers -/

theorem find_asc_eq_some (p : Nat → Bool) :
    ∀ (n s t : Nat), find_asc p s n = some t →
      s ≤ t ∧ t < s + n ∧ p t = true ∧ ∀ x, s ≤ x → x < t → p x = false := by
  intro n
  induction n with
  | zero => intro s t h; simp [find_asc] at h
  | succ n ih =>
    intro s t h
    rw [find_asc] at h
    by_cases hp : p s
    · rw [if_pos hp, Option.some.injEq] at h
      subst h
      exact ⟨Nat.le_refl s, by omega, hp, fun x hx1 hx2 => absurd hx1 (by omega)⟩
    · rw [if_neg hp] at h
      obtain ⟨h1, h2, h3, h4⟩ := ih (s + 1) t h
      refine ⟨by omega, by omega, h3, ?_⟩
      intro x hx1 hx2
      rcases Nat.eq_or_lt_of_le hx1 with rfl | hx1'
      · exact Bool.eq_false_iff.mpr hp
      · exact h4 x hx1' hx2

theorem find_asc_eq_none (p : Nat → Bool) :
    ∀ (n s : Nat), find_asc p s n = none →
      ∀ x, s ≤ x → x < s + n → p x = false := by
  intro n
  induction n with
  | zero => intro s h x hx1 hx2; omega
  | succ n ih =>
    intro s h x hx1 hx2
    rw [find_asc] at h
    by_cases hp : p s
    · rw [if_pos hp] at h; cases h
    · rw [if_neg hp] at h
      rcases Nat.eq_or_lt_of_le hx1 with rfl | hx1'
      · exact Bool.eq_false_iff.mpr hp
      · exact ih (s + 1) h x hx1' (by omega)

theorem find_desc_eq_some (p : Nat → Bool) :
    ∀ (k t : Nat), find_desc p k = some t →
      1 ≤ t ∧ t ≤ k ∧ p t = true ∧ ∀ x, t < x → x ≤ k → p x = false := by
  intro k
  induction k with
  | zero => intro t h; simp [find_desc] at h
  | succ k ih =>
    intro t h
    rw [find_desc] at h
    by_cases hp : p (k + 1)
    · rw [if_pos hp, Option.some.injEq] at h
      subst h
      exact ⟨by omega, Nat.le_refl _, hp, fun x hx1 hx2 => absurd hx1 (by omega)⟩
    · rw [if_neg hp] at h
      obtain ⟨h1, h2, h3, h4⟩ := ih t h
      refine ⟨h1, by omega, h3, ?_⟩
      intro x hx1 hx2
      rcases Nat.eq_or_lt_of_le hx2 with rfl | hx2'
      · exact Bool.eq_false_iff.mpr hp
      · exact h4 x hx1 (by omega)

theorem find_desc_eq_none (p : Nat → Bool) :
    ∀ (k : Nat), find_desc p k = none →
      ∀ x, 1 ≤ x → x ≤ k → p x = false := by
  intro k
  induction k with
  | zero => intro h x hx1 hx2; omega
  | succ k ih =>
    intro h x hx1 hx2
    rw [find_desc] at h
    by_cases hp : p (k + 1)
    · rw [if_pos hp] at h; cases h
    · rw [if_neg hp] at h
      rcases Nat.eq_or_lt_of_le hx2 with rfl | hx2'
      · exact Bool.eq_false_iff.mpr hp
      · exact ih h x hx1 (by omega)

theorem living_non_murderer_iff (v : Village) (label : Nat) :
    v.living_non_murderer label = true ↔
    ∃ w, v.living_villager label = some w ∧
      w.kind ≠ VillagerType.Murderer := by
  rw [Village.living_non_murderer]
  cases h : v.living_villager label with
  | none => simp
  | some w =>
    simp only [decide_eq_true_eq]
    constructor
    · intro hne; exact ⟨w, rfl, hne⟩
    · rintro ⟨w', hw', hne⟩
      cases hw'
      exact hne

theorem villager_type_of_living {v : Village} {label : Nat} {w : Villager}
    (h : v.living_villager label = some w) :
    v.villager_type label = Except.ok w.kind := by
  rw [Village.villager_type, h]

theorem kill_villager_eq_of_living {v : Village} {label : Nat} {w : Villager}
    (h : v.living_villager label = some w) :
    ∃ rest, remove_first (fun u => u.has_label label) v.living_villagers =
      some (w, rest) ∧
    v.kill_villager label = (Except.ok (),
      { v with living_villagers := rest
               dead_villagers := v.dead_villagers ++ [w.kill] }) := by
  obtain ⟨rest, hrm⟩ := remove_first_of_find? h
  exact ⟨rest, hrm, by rw [Village.kill_villager, hrm]⟩

theorem murderer_turn_no_target (v : Village) (l : Nat) (c : Bool)
    (hl : l < 255)
    (hc : (if c then v.to_kill_above l else v.to_kill_below l) = none) :
    v.murderer_turn l c = some v := by
  rw [Village.murderer_turn, if_neg (by omega), hc]

theorem murderer_turn_eq_target (v : Village) (l : Nat) (c : Bool) (t : Nat)
    (hl : l < 255)
    (hc : (if c then v.to_kill_above l else v.to_kill_below l) = some t) :
    v.murderer_turn l c =
      match v.villager_type t with
      | Except.error _ => none
      | Except.ok (VillagerType.Strong true) =>
        match v.living_villager t with
        | none => none
        | some _ =>
          some { v with living_villagers :=
            (set_kind_first t (VillagerType.Strong false) v.living_villagers) }
      | Except.ok _ =>
        match v.kill_villager t with
        | (Except.ok _, killed) => some killed
        | (Except.error _, _) => none := by
  rw [Village.murderer_turn, if_neg (by omega), hc]

theorem murderer_turn_strong {v : Village} {l t : Nat} {c : Bool}
    {w : Villager} (hl : l < 255)
    (hc : (if c then v.to_kill_above l else v.to_kill_below l) = some t)
    (hw : v.living_villager t = some w)
    (hk : w.kind = VillagerType.Strong true) :
    v.murderer_turn l c =
      some { v with living_villagers :=
        (set_kind_first t (VillagerType.Strong false) v.living_villagers) } := by
  rw [murderer_turn_eq_target v l c t hl hc, villager_type_of_living hw, hk, hw]

theorem murderer_turn_kill {v : Village} {l t : Nat} {c : Bool}
    {w : Villager} (hl : l < 255)
    (hc : (if c then v.to_kill_above l else v.to_kill_below l) = some t)
    (hw : v.living_villager t = some w)
    (hk : w.kind ≠ VillagerType.Strong true) :
    (v.kill_villager t).1 = Except.ok () ∧
    v.murderer_turn l c = some (v.kill_villager t).2 := by
  obtain ⟨rest, hrm, hkv⟩ := kill_villager_eq_of_living hw
  refine ⟨by rw [hkv], ?_⟩
  rw [murderer_turn_eq_target v l c t hl hc, villager_type_of_living hw]
  cases hkind : w.kind with
  | Normal => rw [hkv]
  | Afraid => rw [hkv]
  | Murderer => rw [hkv]
  | Strong b =>
    cases b with
    | true => exact absurd hkind hk
    | false => rw [hkv]

theorem target_living_non_murderer {v : Village} {l t : Nat} {c : Bool}
    (hc : (if c then v.to_kill_above l else v.to_kill_below l) = some t) :
    v.living_non_murderer t = true := by
  cases c with
  | true =>
    rw [if_pos rfl] at hc
    exact (find_asc_eq_some _ _ _ _ hc).2.2.1
  | false =>
    rw [if_neg (by simp)] at hc
    exact (find_desc_eq_some _ _ _ hc).2.2.1

theorem murderer_turn_isSome (v : Village) (l : Nat) (c : Bool)
    (hl : l < 255) :
    (v.murderer_turn l c).isSome = true := by
  cases hc : (if c then v.to_kill_above l else v.to_kill_below l) with
  | none => rw [murderer_turn_no_target v l c hl hc]; rfl
  | some t =>
    obtain ⟨w, hw, hne⟩ :=
      (living_non_murderer_iff v t).mp (target_living_non_murderer hc)
    by_cases hk : w.kind = VillagerType.Strong true
    · rw [murderer_turn_strong hl hc hw hk]; rfl
    · rw [(murderer_turn_kill hl hc hw hk).2]; rfl

theorem run_murderers_isSome :
    ∀ (labels : List Nat) (v : Village) (coins : Nat → Bool),
    (∀ l ∈ labels, l < 255) →
    (run_murderers v labels coins).isSome = true := by
  intro labels
  induction labels with
  | nil => intro v coins _; rfl
  | cons l ls ih =>
    intro v coins h
    rw [run_murderers]
    have hs := murderer_turn_isSome v l (coins 0) (h l (List.mem_cons_self l ls))
    cases hm : v.murderer_turn l (coins 0) with
    | none => rw [hm] at hs; cases hs
    | some v' => exact ih v' _ (fun x hx => h x (List.mem_cons_of_mem _ hx))

theorem murderer_snapshot_mem {v : Village} {l : Nat}
    (h : l ∈ v.murderer_snapshot) :
    ∃ w ∈ v.living_villagers, w.kind = VillagerType.Murderer ∧
      w.label = l := by
  rw [Village.murderer_snapshot, List.mem_filterMap] at h
  obtain ⟨w, hw, hfw⟩ := h
  cases hk : w.kind with
  | Murderer =>
    rw [hk] at hfw
    exact ⟨w, hw, hk, Option.some.inj hfw⟩
  | Normal => rw [hk] at hfw; cases hfw
  | Afraid => rw [hk] at hfw; cases hfw
  | Strong b => rw [hk] at hfw; cases hfw

/-! ### Claim C10: run_night never overflows -/

/-- Claim C10: whenever every living murderer has a label strictly below
255, `run_night` runs to completion without panicking — in particular the
ascending neighbor search, which starts at `murder_label + 1` on a `u8`,
never overflows. (In the model, every panic of `run_night`, including that
overflow, is `none`; the hypothesis rules them all out.) -/
theorem run_night_total_of_labels_lt (v : Village) (coins : Nat → Bool)
    (h : ∀ w ∈ v.living_villagers,
      w.kind = VillagerType.Murderer → w.label < 255) :
    (v.run_night coins).isSome = true := by
  rw [Village.run_night]
  have hall : ∀ l ∈ v.murderer_snapshot, l < 255 := by
    intro l hl
    obtain ⟨w, hw, hk, hlab⟩ := murderer_snapshot_mem hl
    exact hlab ▸ h w hw hk
  have hs := run_murderers_isSome v.murderer_snapshot v coins hall
  cases hm : run_murderers v v.murderer_snapshot coins with
  | none => rw [hm] at hs; cases hs
  | some v' => rfl

/-- Concrete check of C10: a village with a murderer at label 254 (and a
normal villager at 1) runs a night without panicking. -/
theorem run_night_total_of_labels_lt_witness :
    ((Village.new_deterministic
      [{ kind := VillagerType.Murderer, label := 254 },
       { kind := VillagerType.Normal, label := 1 }]).run_night
      (fun _ => true)).isSome = true := by
  exact run_night_total_of_labels_lt _ _ (by decide)

/-! ### Claim C3: night resolution targeting -/

/-- Claim C3: `run_night` snapshots the labels of the currently living
murderers and processes them in order (first two conjuncts). For each
murderer label `l` (below 255; label 255 panics, see C10): the ascending
search finds the nearest living non-murderer strictly above `l` (within the
u8 range) and the descending search the nearest strictly below; a coin flip
picks the direction independently of whether a candidate exists there; a
missing candidate wastes the turn with no fallback; an existing candidate
is never a murderer, and is de-flagged in place if it is `Strong` with an
unused resistance (staying alive), otherwise killed via `kill_villager`
(which succeeds). -/
theorem run_night_targeting (v : Village) (coins : Nat → Bool) :
    (∀ l, l ∈ v.murderer_snapshot ↔
      ∃ w ∈ v.living_villagers,
        w.kind = VillagerType.Murderer ∧ w.label = l) ∧
    (v.run_night coins =
      (run_murderers v v.murderer_snapshot coins).map Village.update_status) ∧
    (∀ (u : Village) (l : Nat),
      (∀ t, u.to_kill_above l = some t →
        l < t ∧ t ≤ 255 ∧ u.living_non_murderer t = true ∧
          ∀ x, l < x → x < t → u.living_non_murderer x = false) ∧
      (l < 255 → u.to_kill_above l = none →
        ∀ x, l < x → x ≤ 255 → u.living_non_murderer x = false) ∧
      (∀ t, u.to_kill_below l = some t →
        1 ≤ t ∧ t < l ∧ u.living_non_murderer t = true ∧
          ∀ x, t < x → x < l → u.living_non_murderer x = false) ∧
      (u.to_kill_below l = none →
        ∀ x, 1 ≤ x → x < l → u.living_non_murderer x = false)) ∧
    (∀ (u : Village) (l : Nat),
      u.living_non_murderer l = true ↔
      ∃ w, u.living_villager l = some w ∧
        w.kind ≠ VillagerType.Murderer) ∧
    (∀ (u : Village) (l : Nat) (c : Bool), l < 255 →
      ((if c then u.to_kill_above l else u.to_kill_below l) = none →
        u.murderer_turn l c = some u) ∧
      (∀ t w,
        (if c then u.to_kill_above l else u.to_kill_below l) = some t →
        u.living_villager t = some w →
        w.kind ≠ VillagerType.Murderer ∧
        (w.kind = VillagerType.Strong true →
          u.murderer_turn l c = some { u with living_villagers :=
            (set_kind_first t (VillagerType.Strong false)
              u.living_villagers) }) ∧
        (w.kind ≠ VillagerType.Strong true →
          (u.kill_villager t).1 = Except.ok () ∧
          u.murderer_turn l c = some (u.kill_villager t).2))) := by
  refine ⟨?_, rfl, ?_, fun u l => living_non_murderer_iff u l, ?_⟩
  · intro l
    constructor
    · exact fun h => murderer_snapshot_mem h
    · rintro ⟨w, hw, hk, rfl⟩
      rw [Village.murderer_snapshot, List.mem_filterMap]
      exact ⟨w, hw, by rw [hk]⟩
  · intro u l
    refine ⟨?_, ?_, ?_, ?_⟩
    · intro t h
      obtain ⟨h1, h2, h3, h4⟩ :=
        find_asc_eq_some (u.living_non_murderer) (255 - l) (l + 1) t h
      exact ⟨by omega, by omega, h3, fun x hx1 hx2 => h4 x (by omega) hx2⟩
    · intro hl h x hx1 hx2
      exact find_asc_eq_none (u.living_non_murderer) (255 - l) (l + 1) h x
        (by omega) (by omega)
    · intro t h
      obtain ⟨h1, h2, h3, h4⟩ :=
        find_desc_eq_some (u.living_non_murderer) (l - 1) t h
      exact ⟨h1, by omega, h3, fun x hx1 hx2 => h4 x hx1 (by omega)⟩
    · intro h x hx1 hx2
      exact find_desc_eq_none (u.living_non_murderer) (l - 1) h x hx1 (by omega)
  · intro u l c hl
    refine ⟨fun h => murderer_turn_no_target u l c hl h, ?_⟩
    intro t w hc hw
    obtain ⟨w', hw', hne'⟩ :=
      (living_non_murderer_iff u t).mp (target_living_non_murderer hc)
    have hww : w' = w := Option.some.inj (hw'.symm.trans hw)
    subst hww
    exact ⟨hne', fun hk => murderer_turn_strong hl hc hw hk,
      fun hk => murderer_turn_kill hl hc hw hk⟩

/-- Concrete check of C3: in a village with a murderer at 2 and a normal
villager at 3, the murderer flipping the coin toward the labels above kills
villager 3. -/
theorem run_night_targeting_witness :
    ((Village.new_deterministic
      [{ kind := VillagerType.Murderer, label := 2 },
       { kind := VillagerType.Normal, label := 3 }]).kill_villager 3).1 =
      Except.ok () ∧
    (Village.new_deterministic
      [{ kind := VillagerType.Murderer, label := 2 },
       { kind := VillagerType.Normal, label := 3 }]).murderer_turn 2 true =
      some ((Village.new_deterministic
        [{ kind := VillagerType.Murderer, label := 2 },
         { kind := VillagerType.Normal, label := 3 }]).kill_villager 3).2 := by
  have h := (run_night_targeting
    (Village.new_deterministic
      [{ kind := VillagerType.Murderer, label := 2 },
       { kind := VillagerType.Normal, label := 3 }]) (fun _ => true)).2.2.2.2
  have h2 := (h (Village.new_deterministic
      [{ kind := VillagerType.Murderer, label := 2 },
       { kind := VillagerType.Normal, label := 3 }]) 2 true (by omega)).2 3
    { kind := VillagerType.Normal, label := 3 } rfl rfl
  exact h2.2.2 (by decide)

/-! ### Claim C1: Break semantics -/

theorem unwind_no_repeat :
    ∀ (s : List Instruction),
    (∀ i ∈ s, ∀ k b, i ≠ Instruction.Repeat k b) →
    unwind s = ([], true) := by
  intro s
  induction s with
  | nil => intro _; rfl
  | cons i rest ih =>
    intro h
    have hrest : ∀ j ∈ rest, ∀ k b, j ≠ Instruction.Repeat k b :=
      fun j hj => h j (List.mem_cons_of_mem _ hj)
    cases i with
    | Repeat k b => exact absurd rfl (h _ (List.mem_cons_self _ _) k b)
    | Action a => exact ih hrest
    | Operation o => exact ih hrest
    | Condition c nested => exact ih hrest
    | Break => exact ih hrest

theorem unwind_to_repeat :
    ∀ (pre : List Instruction) (k : Nat) (b rest : List Instruction),
    (∀ i ∈ pre, ∀ k' b', i ≠ Instruction.Repeat k' b') →
    unwind (pre ++ Instruction.Repeat k b :: rest) = (rest, false) := by
  intro pre
  induction pre with
  | nil => intro k b rest _; rfl
  | cons i pre ih =>
    intro k b rest h
    have hpre : ∀ j ∈ pre, ∀ k' b', j ≠ Instruction.Repeat k' b' :=
      fun j hj => h j (List.mem_cons_of_mem _ hj)
    cases i with
    | Repeat k' b' => exact absurd rfl (h _ (List.mem_cons_self _ _) k' b')
    | Action a => exact ih k b rest hpre
    | Operation o => exact ih k b rest hpre
    | Condition c nested => exact ih k b rest hpre
    | Break => exact ih k b rest hpre

/-- Claim C1: executing `Break` through `run_instruction` pops instructions
off the stack until either the stack is exhausted — then the stack is empty
and the status becomes `Done` — or the first (innermost) `Repeat` frame is
popped and discarded, leaving exactly the instructions below that frame and
the status untouched. In both cases the register, location, log and the
village are unchanged. (The next instruction sits at the head of the
modeled stack.) -/
theorem break_exits_innermost_loop (m : Mini) (v : Village)
    (s : List Instruction)
    (hstk : m.instruction_stack = Instruction.Break :: s) :
    ((m.run_instruction v).2 = v ∧
     (m.run_instruction v).1.register = m.register ∧
     (m.run_instruction v).1.location = m.location ∧
     (m.run_instruction v).1.log = m.log) ∧
    ((∀ i ∈ s, ∀ k b, i ≠ Instruction.Repeat k b) →
      (m.run_instruction v).1.instruction_stack = [] ∧
      (m.run_instruction v).1.status = MiniStatus.Done) ∧
    (∀ (pre : List Instruction) (k : Nat) (b rest : List Instruction),
      s = pre ++ Instruction.Repeat k b :: rest →
      (∀ i ∈ pre, ∀ k' b', i ≠ Instruction.Repeat k' b') →
      (m.run_instruction v).1.instruction_stack = rest ∧
      (m.run_instruction v).1.status = m.status) := by
  obtain ⟨stk, reg, st, loc, lg⟩ := m
  dsimp only at hstk
  subst hstk
  refine ⟨?_, ?_, ?_⟩
  · cases hu : unwind s with
    | mk rest' done =>
      cases done <;> simp [Mini.run_instruction, hu]
  · intro h
    have hu := unwind_no_repeat s h
    simp [Mini.run_instruction, hu]
  · intro pre k b rest hs hpre
    subst hs
    have hu := unwind_to_repeat pre k b rest hpre
    simp [Mini.run_instruction, hu]

/-- Concrete check of C1: a `Break` over the stack
`[SetValue 5, Repeat 3 [], PostFlare]` discards up to and including the
`Repeat` frame, leaves `[PostFlare]`, and keeps the status `Running`. -/
theorem break_exits_innermost_loop_witness :
    ((Mini.run_instruction
      { instruction_stack :=
          [Instruction.Break,
           Instruction.Operation (Operation.SetValue 5),
           Instruction.Repeat 3 [],
           Instruction.Action Action.PostFlare]
        register := 0
        status := MiniStatus.Running
        location := 0
        log := [] } (Village.new_deterministic [])).1.instruction_stack =
      [Instruction.Action Action.PostFlare]) ∧
    ((Mini.run_instruction
      { instruction_stack :=
          [Instruction.Break,
           Instruction.Operation (Operation.SetValue 5),
           Instruction.Repeat 3 [],
           Instruction.Action Action.PostFlare]
        register := 0
        status := MiniStatus.Running
        location := 0
        log := [] } (Village.new_deterministic [])).1.status =
      MiniStatus.Running) := by
  have h := break_exits_innermost_loop
    { instruction_stack :=
        [Instruction.Break,
         Instruction.Operation (Operation.SetValue 5),
         Instruction.Repeat 3 [],
         Instruction.Action Action.PostFlare]
      register := 0
      status := MiniStatus.Running
      location := 0
      log := [] } (Village.new_deterministic [])
    [Instruction.Operation (Operation.SetValue 5),
     Instruction.Repeat 3 [],
     Instruction.Action Action.PostFlare] rfl
  have h3 := h.2.2 [Instruction.Operation (Operation.SetValue 5)] 3 []
    [Instruction.Action Action.PostFlare] rfl
    (by
      intro i hi k' b'
      rcases List.mem_singleton.mp hi with rfl
      intro hc
      cases hc)
  exact ⟨h3.1, h3.2⟩

/-! ### Claim C5: Repeat semantics -/

/-- Claim C5: executing `Repeat(remaining, nested)` through
`run_instruction` with `remaining = 0` only pops the instruction (stack
below it, register, location, log, status and village all unchanged); with
`remaining = k+1` it leaves the stack holding the nested body (to be popped
next, in the body's pop order) followed by the continuation
`Repeat(k, nested)` and then the untouched remainder — in the head-as-next
model, `nested.reverse ++ Repeat k nested :: s`. Since each re-queued
continuation carries the decremented count `k`, a `Repeat` with count `n`
re-queues its body at most `n` times. -/
theorem repeat_pushes_continuation (m : Mini) (v : Village) (n : Nat)
    (b s : List Instruction)
    (hstk : m.instruction_stack = Instruction.Repeat n b :: s) :
    (m.run_instruction v).2 = v ∧
    (m.run_instruction v).1.register = m.register ∧
    (m.run_instruction v).1.location = m.location ∧
    (m.run_instruction v).1.log = m.log ∧
    (m.run_instruction v).1.status = m.status ∧
    (n = 0 → (m.run_instruction v).1.instruction_stack = s) ∧
    (∀ k, n = k + 1 →
      (m.run_instruction v).1.instruction_stack =
        b.reverse ++ Instruction.Repeat k b :: s) := by
  obtain ⟨stk, reg, st, loc, lg⟩ := m
  dsimp only at hstk
  subst hstk
  cases n with
  | zero =>
    refine ⟨rfl, rfl, rfl, rfl, rfl, fun _ => rfl, ?_⟩
    intro k hk
    cases hk
  | succ k0 =>
    refine ⟨?_, ?_, ?_, ?_, ?_, ?_, ?_⟩ <;> simp [Mini.run_instruction]

/-- Concrete check of C5: `Repeat 2 [PostFlare]` pops into the body followed
by the continuation `Repeat 1 [PostFlare]`, leaving everything else as it
was. -/
theorem repeat_pushes_continuation_witness :
    ((Mini.run_instruction
      { instruction_stack := [Instruction.Repeat 2 [Instruction.Action Action.PostFlare]]
        register := 7
        status := MiniStatus.Running
        location := 1
        log := [] } (Village.new_deterministic [])).1.instruction_stack =
      [Instruction.Action Action.PostFlare,
       Instruction.Repeat 1 [Instruction.Action Action.PostFlare]]) ∧
    ((Mini.run_instruction
      { instruction_stack := [Instruction.Repeat 2 [Instruction.Action Action.PostFlare]]
        register := 7
        status := MiniStatus.Running
        location := 1
        log := [] } (Village.new_deterministic [])).1.register = 7) := by
  have h := repeat_pushes_continuation
    { instruction_stack := [Instruction.Repeat 2 [Instruction.Action Action.PostFlare]]
      register := 7
      status := MiniStatus.Running
      location := 1
      log := [] } (Village.new_deterministic []) 2
    [Instruction.Action Action.PostFlare] [] rfl
  refine ⟨?_, h.2.1⟩
  have h7 := h.2.2.2.2.2.2 1 rfl
  simpa using h7

/-! ### Claim C2: visit semantics and the only way to get Lost -/

theorem villager_exists_of_living {v : Village} {label : Nat} {w : Villager}
    (h : v.living_villager label = some w) :
    v.villager_exists label = true := by
  rw [Village.living_villager] at h
  rw [Village.villager_exists, Bool.or_eq_true, List.any_eq_true,
    List.any_eq_true]
  have hp := List.find?_some h
  exact Or.inr ⟨w, List.mem_of_find?_eq_some h, hp⟩

theorem villager_exists_of_dead {v : Village} {label : Nat} {w : Villager}
    (h : v.dead_villager label = some w) :
    v.villager_exists label = true := by
  rw [Village.dead_villager] at h
  rw [Village.villager_exists, Bool.or_eq_true, List.any_eq_true,
    List.any_eq_true]
  have hp := List.find?_some h
  exact Or.inl ⟨w, List.mem_of_find?_eq_some h, hp⟩

/-- Claim C2: `visit_villager` (used by `Mini::new` at construction and by
the `Visit` action with the register as target) sets status `Lost`, leaving
everything else alone, exactly when the label exists in neither collection;
otherwise it moves to the label and: does nothing more if the villager
there is dead (any kind), destroys the mini and wipes the whole log for a
living murderer, destroys it but keeps the log for a living afraid
villager, and changes nothing else (status, log, register) for a living
normal or strong villager (either resistance state). Moreover a visit to a
nonexistent label is the only way a mini ever becomes `Lost`: at
construction `Lost` holds iff the starting label does not exist, and a
`run_instruction` step ending `Lost` either started `Lost` or popped a
`Visit` whose register target does not exist. -/
theorem visit_villager_outcomes (m : Mini) (v : Village) (label : Nat)
    (instrs : List Instruction) :
    (v.villager_exists label = false →
      m.visit_villager v label = { m with status := MiniStatus.Lost }) ∧
    (∀ w, v.dead_villager label = some w →
      m.visit_villager v label = { m with location := label }) ∧
    (∀ w, v.dead_villager label = none → v.living_villager label = some w →
      (w.kind = VillagerType.Murderer →
        m.visit_villager v label =
          { m with location := label, status := MiniStatus.Destroyed,
                   log := [] }) ∧
      (w.kind = VillagerType.Afraid →
        m.visit_villager v label =
          { m with location := label, status := MiniStatus.Destroyed }) ∧
      ((w.kind = VillagerType.Normal ∨
          ∃ fl, w.kind = VillagerType.Strong fl) →
        m.visit_villager v label = { m with location := label })) ∧
    ((Mini.new label instrs v).status = MiniStatus.Lost ↔
      v.villager_exists label = false) ∧
    (∀ m₁ : Mini, (m₁.run_instruction v).1.status = MiniStatus.Lost →
      m₁.status = MiniStatus.Lost ∨
      (∃ s, m₁.instruction_stack = Instruction.Action Action.Visit :: s ∧
        v.villager_exists m₁.register = false)) := by
  refine ⟨?_, ?_, ?_, ?_, ?_⟩
  · intro hex
    simp [Mini.visit_villager, hex]
  · intro w hd
    simp [Mini.visit_villager, villager_exists_of_dead hd, hd]
  · intro w hd hliv
    refine ⟨?_, ?_, ?_⟩
    · intro hk
      simp [Mini.visit_villager, villager_exists_of_living hliv, hd,
        villager_type_of_living hliv, hk]
    · intro hk
      simp [Mini.visit_villager, villager_exists_of_living hliv, hd,
        villager_type_of_living hliv, hk]
    · intro hk
      rcases hk with hk | ⟨fl, hk⟩ <;>
        simp [Mini.visit_villager, villager_exists_of_living hliv, hd,
          villager_type_of_living hliv, hk]
  · constructor
    · intro h
      cases hex : v.villager_exists label with
      | false => rfl
      | true =>
        exfalso
        cases hd : v.dead_villager label with
        | some w =>
          simp [Mini.new, Mini.visit_villager, hex, hd] at h
        | none =>
          cases ht : v.villager_type label with
          | error e =>
            simp [Mini.new, Mini.visit_villager, hex, hd, ht] at h
          | ok k =>
            cases k <;>
              simp [Mini.new, Mini.visit_villager, hex, hd, ht] at h
    · intro hex
      simp [Mini.new, Mini.visit_villager, hex]
  · intro m₁ h
    obtain ⟨stk, reg, st, loc, lg⟩ := m₁
    cases stk with
    | nil => simp [Mini.run_instruction] at h
    | cons i rest =>
      cases i with
      | Action a =>
        cases a with
        | PostRegister =>
          simp [Mini.run_instruction] at h
          exact Or.inl h
        | PostFlare =>
          simp [Mini.run_instruction] at h
          exact Or.inl h
        | Detonate => simp [Mini.run_instruction] at h
        | Visit =>
          cases hex : v.villager_exists reg with
          | false => exact Or.inr ⟨rest, rfl, rfl⟩
          | true =>
            left
            cases hd : v.dead_villager reg with
            | some w =>
              simp [Mini.run_instruction, Mini.visit_villager, hex, hd] at h
              exact h
            | none =>
              cases ht : v.villager_type reg with
              | error e =>
                simp [Mini.run_instruction, Mini.visit_villager,
                  hex, hd, ht] at h
                exact h
              | ok k =>
                cases k with
                | Normal =>
                  simp [Mini.run_instruction, Mini.visit_villager,
                    hex, hd, ht] at h
                  exact h
                | Strong fl =>
                  simp [Mini.run_instruction, Mini.visit_villager,
                    hex, hd, ht] at h
                  exact h
                | Afraid =>
                  simp [Mini.run_instruction, Mini.visit_villager,
                    hex, hd, ht] at h
                | Murderer =>
                  simp [Mini.run_instruction, Mini.visit_villager,
                    hex, hd, ht] at h
      | Operation o =>
        cases o with
        | Increment =>
          by_cases hr : reg = 255
          · simp [Mini.run_instruction, hr] at h
          · simp [Mini.run_instruction, hr] at h
            exact Or.inl h
        | Decrement =>
          by_cases hr : reg = 0
          · simp [Mini.run_instruction, hr] at h
          · simp [Mini.run_instruction, hr] at h
            exact Or.inl h
        | SetValue val =>
          simp [Mini.run_instruction] at h
          exact Or.inl h
      | Condition c nested =>
        cases c with
        | VillagerIsAlive =>
          by_cases hl : (v.living_villager loc).isSome <;>
            simp [Mini.run_instruction, hl] at h <;>
            exact Or.inl h
        | VillagerIsDead =>
          by_cases hl : (v.dead_villager loc).isSome <;>
            simp [Mini.run_instruction, hl] at h <;>
            exact Or.inl h
        | RegisterEq val =>
          by_cases hr : reg = val <;>
            simp [Mini.run_instruction, hr] at h <;>
            exact Or.inl h
      | Repeat n nested =>
        by_cases hn : n = 0 <;>
          simp [Mini.run_instruction, hn] at h <;>
          exact Or.inl h
      | Break =>
        cases hu : unwind rest with
        | mk rest2 done =>
          cases done with
          | true => simp [Mini.run_instruction, hu] at h
          | false =>
            simp [Mini.run_instruction, hu] at h
            exact Or.inl h

/-- Concrete check of C2: visiting label 9 of an empty village makes the
mini `Lost`. -/
theorem visit_villager_outcomes_witness :
    (Mini.visit_villager
      { instruction_stack := []
        register := 0
        status := MiniStatus.Running
        location := 5
        log := [] } (Village.new_deterministic []) 9).status =
      MiniStatus.Lost := by
  have h := (visit_villager_outcomes
    { instruction_stack := []
      register := 0
      status := MiniStatus.Running
      location := 5
      log := [] } (Village.new_deterministic []) 9 []).1 rfl
  rw [h]

/-! ### Claim C6: run_until_completion terminates -/

theorem lweight_append :
    ∀ (a b : List Instruction), lweight (a ++ b) = lweight a + lweight b := by
  intro a b
  induction a with
  | nil => simp [lweight]
  | cons i rest ih =>
    rw [List.cons_append, lweight, lweight, ih, Nat.add_assoc]

theorem lweight_reverse :
    ∀ (l : List Instruction), lweight l.reverse = lweight l := by
  intro l
  induction l with
  | nil => rfl
  | cons i rest ih =>
    rw [List.reverse_cons, lweight_append, ih, lweight]
    simp [lweight]
    omega

theorem visit_stack (m : Mini) (v : Village) (l : Nat) :
    (m.visit_villager v l).instruction_stack = m.instruction_stack := by
  cases hex : v.villager_exists l with
  | false => simp [Mini.visit_villager, hex]
  | true =>
    cases hd : v.dead_villager l with
    | some w => simp [Mini.visit_villager, hex, hd]
    | none =>
      cases ht : v.villager_type l with
      | error e => simp [Mini.visit_villager, hex, hd, ht]
      | ok k => cases k <;> simp [Mini.visit_villager, hex, hd, ht]

theorem unwind_lweight_le :
    ∀ (s : List Instruction), lweight (unwind s).1 ≤ lweight s := by
  intro s
  induction s with
  | nil => exact Nat.le_refl _
  | cons i rest ih =>
    cases i with
    | Repeat k b =>
      show lweight rest ≤ lweight (Instruction.Repeat k b :: rest)
      rw [lweight]
      exact Nat.le_add_left _ _
    | Action a =>
      exact Nat.le_trans ih (by rw [lweight]; exact Nat.le_add_left _ _)
    | Operation o =>
      exact Nat.le_trans ih (by rw [lweight]; exact Nat.le_add_left _ _)
    | Condition c nested =>
      exact Nat.le_trans ih (by rw [lweight]; exact Nat.le_add_left _ _)
    | Break =>
      exact Nat.le_trans ih (by rw [lweight]; exact Nat.le_add_left _ _)

theorem run_instruction_stack_lt (m : Mini) (v : Village)
    (h : m.instruction_stack ≠ []) :
    lweight (m.run_instruction v).1.instruction_stack <
      lweight m.instruction_stack := by
  obtain ⟨stk, reg, st, loc, lg⟩ := m
  cases stk with
  | nil => exact absurd rfl h
  | cons i rest =>
    cases i with
    | Action a =>
      cases a with
      | PostRegister => simp [Mini.run_instruction, lweight, iweight]
      | PostFlare => simp [Mini.run_instruction, lweight, iweight]
      | Detonate => simp [Mini.run_instruction, lweight, iweight]
      | Visit =>
        have hv := visit_stack
          { instruction_stack := rest, register := reg, status := st,
            location := loc, log := lg } v reg
        simp only [Mini.run_instruction, hv, lweight, iweight]
        omega
    | Operation o =>
      cases o with
      | Increment =>
        by_cases hr : reg = 255 <;>
          simp [Mini.run_instruction, hr, lweight, iweight]
      | Decrement =>
        by_cases hr : reg = 0 <;>
          simp [Mini.run_instruction, hr, lweight, iweight]
      | SetValue val => simp [Mini.run_instruction, lweight, iweight]
    | Condition c nested =>
      have hpush : lweight (nested.reverse ++ rest) <
          lweight (Instruction.Condition c nested :: rest) := by
        rw [lweight_append, lweight_reverse, lweight, iweight]
        omega
      have hdrop : lweight rest <
          lweight (Instruction.Condition c nested :: rest) := by
        rw [lweight, iweight]
        omega
      cases c with
      | VillagerIsAlive =>
        by_cases hl : (v.living_villager loc).isSome <;>
          simp only [Mini.run_instruction, hl, if_pos, if_neg, ite_true,
            ite_false] <;>
          first | exact hpush | exact hdrop
      | VillagerIsDead =>
        by_cases hl : (v.dead_villager loc).isSome <;>
          simp only [Mini.run_instruction, hl, ite_true, ite_false] <;>
          first | exact hpush | exact hdrop
      | RegisterEq val =>
        by_cases hr : reg = val <;>
          simp only [Mini.run_instruction, hr, ite_true, ite_false] <;>
          first | exact hpush | exact hdrop
    | Repeat n nested =>
      cases n with
      | zero =>
        simp only [Mini.run_instruction, ne_eq, not_true_eq_false,
          ite_false, if_neg]
        rw [lweight, iweight]
        omega
      | succ k =>
        have hne : (k + 1 ≠ 0) := Nat.succ_ne_zero k
        simp only [Mini.run_instruction, ne_eq, hne, not_false_eq_true,
          ite_true, if_pos]
        rw [lweight_append, lweight_reverse, lweight, lweight, iweight,
          iweight, Nat.succ_sub_one, Nat.succ_mul]
        omega
    | Break =>
      cases hu : unwind rest with
      | mk rest2 done =>
        have hle := unwind_lweight_le rest
        rw [hu] at hle
        dsimp only at hle
        cases done with
        | true =>
          simp only [Mini.run_instruction, hu, lweight, iweight]
          omega
        | false =>
          simp only [Mini.run_instruction, hu, lweight, iweight]
          omega

theorem run_instruction_nil_stack (m : Mini) (v : Village)
    (h : m.instruction_stack = []) :
    (m.run_instruction v).1.status = MiniStatus.Done := by
  obtain ⟨stk, reg, st, loc, lg⟩ := m
  dsimp only at h
  subst h
  rfl

theorem run_instruction_measure_lt (m : Mini) (v : Village)
    (h : m.status = MiniStatus.Running) :
    Mini.measure (m.run_instruction v).1 < Mini.measure m := by
  by_cases hs : m.instruction_stack = []
  · have hd := run_instruction_nil_stack m v hs
    rw [Mini.measure, if_neg (by rw [hd]; exact fun hc => by cases hc),
      Mini.measure, if_pos h]
    omega
  · have hlt := run_instruction_stack_lt m v hs
    by_cases hst : (m.run_instruction v).1.status = MiniStatus.Running
    · rw [Mini.measure, if_pos hst, Mini.measure, if_pos h]
      omega
    · rw [Mini.measure, if_neg hst, Mini.measure, if_pos h]
      omega

theorem visit_log (m : Mini) (v : Village) (l : Nat) :
    (m.visit_villager v l).log = m.log ∨ (m.visit_villager v l).log = [] := by
  cases hex : v.villager_exists l with
  | false => simp [Mini.visit_villager, hex]
  | true =>
    cases hd : v.dead_villager l with
    | some w => simp [Mini.visit_villager, hex, hd]
    | none =>
      cases ht : v.villager_type l with
      | error e => simp [Mini.visit_villager, hex, hd, ht]
      | ok k => cases k <;> simp [Mini.visit_villager, hex, hd, ht]

theorem run_instruction_no_finished (m : Mini) (v : Village)
    (h : Event.Finished ∉ m.log) :
    Event.Finished ∉ (m.run_instruction v).1.log := by
  obtain ⟨stk, reg, st, loc, lg⟩ := m
  cases stk with
  | nil => exact h
  | cons i rest =>
    cases i with
    | Action a =>
      cases a with
      | PostRegister =>
        simp only [Mini.run_instruction, List.mem_append,
          List.mem_singleton]
        rintro (hc | hc)
        · exact h hc
        · cases hc
      | PostFlare =>
        simp only [Mini.run_instruction, List.mem_append,
          List.mem_singleton]
        rintro (hc | hc)
        · exact h hc
        · cases hc
      | Detonate => exact h
      | Visit =>
        rcases visit_log
          { instruction_stack := rest, register := reg, status := st,
            location := loc, log := lg } v reg with hl | hl
        · rw [Mini.run_instruction]
          rw [hl]
          exact h
        · rw [Mini.run_instruction]
          rw [hl]
          exact List.not_mem_nil _
    | Operation o =>
      cases o with
      | Increment =>
        by_cases hr : reg = 255 <;> simp [Mini.run_instruction, hr] <;>
          exact h
      | Decrement =>
        by_cases hr : reg = 0 <;> simp [Mini.run_instruction, hr] <;>
          exact h
      | SetValue val => exact h
    | Condition c nested =>
      cases c with
      | VillagerIsAlive =>
        by_cases hl : (v.living_villager loc).isSome <;>
          simp [Mini.run_instruction, hl] <;> exact h
      | VillagerIsDead =>
        by_cases hl : (v.dead_villager loc).isSome <;>
          simp [Mini.run_instruction, hl] <;> exact h
      | RegisterEq val =>
        by_cases hr : reg = val <;>
          simp [Mini.run_instruction, hr] <;> exact h
    | Repeat n nested =>
      by_cases hn : n = 0 <;> simp [Mini.run_instruction, hn] <;> exact h
    | Break =>
      cases hu : unwind rest with
      | mk rest2 done =>
        cases done with
        | true => simp [Mini.run_instruction, hu]; exact h
        | false => simp [Mini.run_instruction, hu]; exact h

theorem run_loop_exit (m : Mini) (v : Village) (n : Nat)
    (h : m.status ≠ MiniStatus.Running) : run_loop n m v = (m, v) := by
  cases n with
  | zero => rfl
  | succ k => rw [run_loop, if_neg h]

theorem run_loop_spec :
    ∀ (fuel : Nat) (m : Mini) (v : Village), Mini.measure m ≤ fuel →
    Event.Finished ∉ m.log →
    ((run_loop fuel m v).1.status ≠ MiniStatus.Running ∧
     Event.Finished ∉ (run_loop fuel m v).1.log ∧
     ∀ n, fuel ≤ n → run_loop n m v = run_loop fuel m v) := by
  intro fuel
  induction fuel with
  | zero =>
    intro m v hm hlog
    have hst : m.status ≠ MiniStatus.Running := by
      intro hc
      rw [Mini.measure, if_pos hc] at hm
      omega
    refine ⟨hst, hlog, ?_⟩
    intro n _
    rw [run_loop_exit m v n hst]
    rfl
  | succ fuel ih =>
    intro m v hm hlog
    by_cases hst : m.status = MiniStatus.Running
    · have hstep : run_loop (fuel + 1) m v =
          run_loop fuel (m.run_instruction v).1 (m.run_instruction v).2 := by
        rw [run_loop, if_pos hst]
      have hm' : Mini.measure (m.run_instruction v).1 ≤ fuel := by
        have := run_instruction_measure_lt m v hst
        omega
      have hlog' := run_instruction_no_finished m v hlog
      obtain ⟨h1, h2, h3⟩ := ih (m.run_instruction v).1
        (m.run_instruction v).2 hm' hlog'
      refine ⟨by rw [hstep]; exact h1, by rw [hstep]; exact h2, ?_⟩
      intro n hn
      cases n with
      | zero => omega
      | succ k =>
        rw [run_loop, if_pos hst, hstep]
        exact h3 k (Nat.le_of_succ_le_succ hn)
    · refine ⟨?_, ?_, ?_⟩
      · rw [run_loop_exit m v _ hst]
        exact hst
      · rw [run_loop_exit m v _ hst]
        exact hlog
      · intro n _
        rw [run_loop_exit m v n hst, run_loop_exit m v _ hst]

theorem run_loop_stable (m : Mini) (v : Village) (n : Nat)
    (hn : Mini.measure m ≤ n) (hlog : Event.Finished ∉ m.log) :
    run_loop n m v = run_loop (Mini.measure m) m v :=
  (run_loop_spec (Mini.measure m) m v (Nat.le_refl _) hlog).2.2 n hn

theorem mini_new_log_eq_nil (start : Nat) (instrs : List Instruction)
    (v : Village) : (Mini.new start instrs v).log = [] := by
  cases hex : v.villager_exists start with
  | false => simp [Mini.new, Mini.visit_villager, hex]
  | true =>
    cases hd : v.dead_villager start with
    | some w => simp [Mini.new, Mini.visit_villager, hex, hd]
    | none =>
      cases ht : v.villager_type start with
      | error e => simp [Mini.new, Mini.visit_villager, hex, hd, ht]
      | ok k => cases k <;> simp [Mini.new, Mini.visit_villager, hex, hd, ht]

/-- Claim C6: for every village, starting label and finite instruction
sequence, `run_until_completion` terminates — the mini reaches one of the
terminal statuses `Done`, `Destroyed` or `Lost`, and some finite number of
loop iterations (`run_loop` fuel) already suffices to leave `Running` —
and a single terminal `Finished` event is appended to the log exactly when
the final status is `Done`: a `Done` log ends in one `Finished` with none
before it, while `Destroyed` and `Lost` logs contain no `Finished` at all. -/
theorem run_until_completion_terminates (v : Village) (start : Nat)
    (instrs : List Instruction) :
    (((Mini.new start instrs v).run_until_completion v).1.status =
        MiniStatus.Done ∨
     ((Mini.new start instrs v).run_until_completion v).1.status =
        MiniStatus.Destroyed ∨
     ((Mini.new start instrs v).run_until_completion v).1.status =
        MiniStatus.Lost) ∧
    (∃ fuel, (run_loop fuel (Mini.new start instrs v) v).1.status ≠
        MiniStatus.Running) ∧
    (((Mini.new start instrs v).run_until_completion v).1.status =
        MiniStatus.Done →
      ∃ l, ((Mini.new start instrs v).run_until_completion v).1.log =
        l ++ [Event.Finished] ∧ Event.Finished ∉ l) ∧
    (((Mini.new start instrs v).run_until_completion v).1.status ≠
        MiniStatus.Done →
      Event.Finished ∉
        ((Mini.new start instrs v).run_until_completion v).1.log) := by
  have hlog0 : Event.Finished ∉ (Mini.new start instrs v).log := by
    rw [mini_new_log_eq_nil]
    exact List.not_mem_nil _
  obtain ⟨h1, h2, -⟩ := run_loop_spec (Mini.measure (Mini.new start instrs v))
    (Mini.new start instrs v) v (Nat.le_refl _) hlog0
  by_cases hdone : (run_loop (Mini.measure (Mini.new start instrs v))
      (Mini.new start instrs v) v).1.status = MiniStatus.Done
  · refine ⟨?_, ⟨_, h1⟩, ?_, ?_⟩
    · simp only [Mini.run_until_completion]
      rw [if_pos hdone]
      exact Or.inl hdone
    · intro _
      simp only [Mini.run_until_completion]
      rw [if_pos hdone]
      exact ⟨_, rfl, h2⟩
    · intro hc
      exfalso
      apply hc
      simp only [Mini.run_until_completion]
      rw [if_pos hdone]
      exact hdone
  · have hruc : (Mini.new start instrs v).run_until_completion v =
        run_loop (Mini.measure (Mini.new start instrs v))
          (Mini.new start instrs v) v := by
      simp only [Mini.run_until_completion]
      rw [if_neg hdone]
    refine ⟨?_, ⟨_, h1⟩, ?_, ?_⟩
    · rw [hruc]
      cases hs : (run_loop (Mini.measure (Mini.new start instrs v))
          (Mini.new start instrs v) v).1.status with
      | Running => exact absurd hs h1
      | Done => exact absurd hs hdone
      | Destroyed => exact Or.inr (Or.inl rfl)
      | Lost => exact Or.inr (Or.inr rfl)
    · intro hc
      rw [hruc] at hc
      exact absurd hc hdone
    · intro _
      rw [hruc]
      exact h2

end BoardGame
